import Mathlib

/-!
Shallow embedding of the FreeSummarizer service (src/main.py) and proofs of
the frozen claims about it.

External collaborators (the nltk sentence tokenizer and the sumy LexRank /
LSA rankers) are modelled as oracle parameters: a tokenizer
`tok : String → List String` and rankers `String → Nat → Option (List String)`
where `none` models the ranker raising an exception (every such exception is
caught by the code, so the embedded pipeline is total).

Python string primitives are embedded over `List Char`:
`str.split()` (whitespace split, no empty words), `sep.join`, `str.strip()`,
`str.lower()` (per-character lowering) and `str.find` (first occurrence,
-1 modelled as `none`).  Python float arithmetic in the sentence-budget
computation is modelled with exact rationals `ℚ`.
-/

namespace Summarizer

/-- Python `str.split()` helper over characters: accumulate the current word
(reversed) in `acc`, splitting on whitespace and dropping empty words. -/
def wordsAux : List Char → List Char → List (List Char)
  | [], acc => if acc = [] then [] else [acc.reverse]
  | c :: cs, acc =>
    if c.isWhitespace then
      if acc = [] then wordsAux cs [] else acc.reverse :: wordsAux cs []
    else wordsAux cs (c :: acc)

/-- Python `s.split()`: the whitespace-separated words of `s`. -/
def words (s : String) : List String :=
  (wordsAux s.data []).map (fun l => ⟨l⟩)

/-- `sep.join ws` over characters. -/
def joinSep (sep : List Char) : List (List Char) → List Char
  | [] => []
  | [w] => w
  | w :: ws => w ++ sep ++ joinSep sep ws

/-- Python `sep.join(ws)`. -/
def sjoin (sep : String) (l : List String) : String :=
  ⟨joinSep sep.data (l.map String.data)⟩

/-- Python `s.strip()`: drop leading and trailing whitespace. -/
def pyStrip (s : String) : String :=
  ⟨((s.data.dropWhile Char.isWhitespace).reverse.dropWhile Char.isWhitespace).reverse⟩

/-- Python `s.lower()`, modelled as per-character lowering. -/
def lowerChars (s : String) : String := ⟨s.data.map Char.toLower⟩

/-- `isPre needle hay`: does `hay` start with `needle`? -/
def isPre : List Char → List Char → Bool
  | [], _ => true
  | _ :: _, [] => false
  | a :: as, b :: bs => a = b && isPre as bs

/-- Python `hay.find(needle)`: index of the first occurrence, `none` for -1
(structural recursion on the haystack so that it evaluates by reduction). -/
def findSub : List Char → List Char → Option Nat
  | [], needle => if isPre needle [] then some 0 else none
  | c :: t, needle =>
    if isPre needle (c :: t) then some 0
    else (findSub t needle).map (· + 1)

/-! ## Chunker (src/main.py, `split_text_to_chunks_by_sentences`) -/

/-- One iteration of the sentence-accumulation loop: state is
(closed chunks as sentence groups, current group, current length). -/
def chunkStep (target : Nat) (st : List (List String) × List String × Nat)
    (sent : String) : List (List String) × List String × Nat :=
  let slen := sent.length + 1
  if st.2.1 ≠ [] ∧ st.2.2 + slen > target then
    (st.1 ++ [st.2.1], [sent], slen)
  else
    (st.1, st.2.1 ++ [sent], st.2.2 + slen)

/-- The sentence groups the chunker builds, before each group is joined with
single spaces and stripped (the loop of lines 63-75 factored at the level of
sentence groups; the join does not influence the control flow). -/
def chunkGroups (sents : List String) (target : Nat) : List (List String) :=
  let fin := sents.foldl (chunkStep target) ([], [], 0)
  if fin.2.1 ≠ [] then fin.1 ++ [fin.2.1] else fin.1

/-- Raw character windows of width `w` (the degenerate fallback when sentence
tokenization yields nothing).  For `w = 0` the Python code would raise; the
model returns `[]` there (no claim exercises `w = 0`). -/
def charWindows (l : List Char) (w : Nat) : List (List Char) :=
  if l = [] ∨ w = 0 then []
  else l.take w :: charWindows (l.drop w) w
termination_by l.length
decreasing_by
  rename_i h
  push_neg at h
  have hl : l ≠ [] := h.1
  have hw : w ≠ 0 := h.2
  have : 0 < l.length := List.length_pos.mpr hl
  have : 0 < w := Nat.pos_of_ne_zero hw
  simp [List.length_drop]
  omega

/-- `split_text_to_chunks_by_sentences` from src/main.py, with the sentence
tokenizer passed as an oracle. -/
def split_text_to_chunks_by_sentences (tok : String → List String)
    (text : String) (chunk_target_chars : Nat) : List String :=
  let chunks := (chunkGroups (tok text) chunk_target_chars).map
    (fun g => pyStrip (sjoin " " g))
  if chunks = [] then (charWindows text.data chunk_target_chars).map (fun l => ⟨l⟩)
  else chunks

/-! ## Extractive summarize with fallback (src/main.py, `summarize_text_with_sumy`) -/

/-- The external collaborators: nltk `sent_tokenize` and the two sumy
rankers.  `none` from a ranker models the call raising an exception. -/
structure Oracles where
  tok : String → List String
  lexrank : String → Nat → Option (List String)
  lsa : String → Nat → Option (List String)

/-- `[str(s).strip() for s in out if str(s).strip()]`: strip each ranked
sentence and keep the non-empty ones. -/
def filtClean (l : List String) : List String :=
  (l.map pyStrip).filter (fun s => s ≠ "")

/-- `summarize_text_with_sumy` (always called with prefer="lexrank"):
try LexRank; on exception or empty result try LSA; on exception or empty
result fall back to the first sentences of the raw tokenization. -/
def summarize_text_with_sumy (o : Oracles) (text : String)
    (sentence_count : Nat) : List String :=
  let fromLex := match o.lexrank text sentence_count with
    | some l => filtClean l
    | none => []
  if fromLex ≠ [] then fromLex
  else
    let fromLsa := match o.lsa text sentence_count with
      | some l => filtClean l
      | none => []
    if fromLsa ≠ [] then fromLsa
    else
      let raw := o.tok text
      raw.take (max 1 (min raw.length sentence_count))

/-! ## Ordering by origin (src/main.py, `ordered_join`) -/

/-- The sort key of a selected sentence: first case-insensitive occurrence
offset in the lowered reference text, `float("inf")` modelled as `⊤`. -/
def occKey (lowered : String) (s : String) : WithTop Nat :=
  match findSub lowered.data (lowerChars s).data with
  | some i => (i : WithTop Nat)
  | none => ⊤

/-- `ordered_join`: stable-sort the sentences by first occurrence in
`original_text` (case-insensitive; not found sorts last), join with single
spaces and strip.  Python's `sorted` is a stable sort, as is
`List.insertionSort`. -/
def ordered_join (sentences : List String) (original_text : String) : String :=
  let lowered := lowerChars original_text
  pyStrip (sjoin " "
    (sentences.insertionSort (fun a b => occKey lowered a ≤ occKey lowered b)))

/-! ## The /summarize pipeline (src/main.py, `summarize`) -/

/-- Runtime configuration (environment variables in the source). -/
structure Config where
  maxInputChars : Nat
  chunkCharTarget : Nat
  maxSentenceCount : Nat

/-- The request body: `text` and optional `max_words` (pydantic default 200;
an explicit `null` is also allowed, hence `Option`). -/
structure SummarizeRequest where
  text : String
  max_words : Option Int
deriving DecidableEq

/-- Python `req.max_words or 200`: `None` and the falsy `0` both give the
default 200. -/
def orDefault (mw : Option Int) : Int :=
  match mw with
  | none => 200
  | some n => if n = 0 then 200 else n

/-- `target_words = max(30, min(800, req.max_words or 200))` (line 127). -/
def targetWords (mw : Option Int) : Int :=
  max 30 (min 800 (orDefault mw))

/-- The sentence-budget estimator shared by the per-chunk pass
(lines 142-148) and the final pass (lines 170-173): 1 when there are no
sentences (the final pass only reaches it with a non-empty sentence list),
otherwise `max(1, ceil(t / max(1, words/len(sents))))`.  Python float
division is modelled with exact rationals. -/
def estimateSentCount (t : ℚ) (sents : List String) : Nat :=
  if sents = [] then 1
  else
    let w : Nat := (sents.map (fun s => (words s).length)).sum
    let avg : ℚ := max 1 ((w : ℚ) / (sents.length : ℚ))
    (max 1 ⌈t / avg⌉).toNat

/-- One chunk's partial summary (loop body, lines 140-156): estimate the
sentence budget against the per-chunk target `tq`, cap it, summarize with
fallback, join with spaces.  The `except` branch of the source is
unreachable here because the embedded `summarize_text_with_sumy` is total. -/
def perChunkSummary (cfg : Config) (o : Oracles) (tq : ℚ) (chunk : String) :
    String :=
  let sents := o.tok chunk
  let cnt := min (estimateSentCount tq sents) cfg.maxSentenceCount
  sjoin " " (summarize_text_with_sumy o chunk cnt)

/-- Chunk, summarize each chunk, and recombine the non-blank partial
summaries with blank-line separators (lines 134-159). -/
def combinedText (cfg : Config) (o : Oracles) (t : Int) (text : String) :
    String :=
  let chunks := split_text_to_chunks_by_sentences o.tok text cfg.chunkCharTarget
  let partials := chunks.map
    (perChunkSummary cfg o ((t : ℚ) / (chunks.length : ℚ)))
  sjoin "\n\n" (partials.filter (fun p => pyStrip p ≠ ""))

/-- The final summarization pass (lines 162-176): returns the candidate
summary and the method label. -/
def finalPhase (cfg : Config) (o : Oracles) (t : Int) (text : String) :
    String × String :=
  let combined := combinedText cfg o t text
  let final_sents := o.tok combined
  if final_sents = [] then
    (sjoin " " ((o.tok text).take (max 1 (min (o.tok text).length 5))),
     "fallback-first-sents")
  else
    let cnt := min (estimateSentCount (t : ℚ) final_sents) cfg.maxSentenceCount
    (ordered_join (summarize_text_with_sumy o combined cnt) combined,
     "chunked-lexrank")

/-- The post-trim step (lines 178-181): word-boundary truncation to
`target_words + 30` words when the candidate is longer. -/
def postTrim (t : Int) (s : String) : String :=
  let w := words s
  if (w.length : Int) > t + 30 then sjoin " " (w.take (t + 30).toNat) else s

/-- The fields of a 200 response. -/
structure SummaryResp where
  summary : String
  word_count : Nat
  method : String
deriving DecidableEq

/-- Outcome of a /summarize call: 400, 413 or a 200 payload. -/
inductive SummarizeResult where
  | badRequest
  | payloadTooLarge
  | ok (r : SummaryResp)
deriving DecidableEq

/-- The `/summarize` handler (lines 114-183): strip, validate, short-circuit,
chunk-summarize-recombine, final pass, trim. -/
def summarize (cfg : Config) (o : Oracles) (req : SummarizeRequest) :
    SummarizeResult :=
  let text := pyStrip req.text
  if text = "" then .badRequest
  else if text.length > cfg.maxInputChars then .payloadTooLarge
  else
    let t := targetWords req.max_words
    let total := (words text).length
    if (total : Int) ≤ t + 20 then .ok ⟨text, total, "original"⟩
    else
      let fm := finalPhase cfg o t text
      let fs := postTrim t fm.1
      .ok ⟨fs, (words fs).length, fm.2⟩

/-! ## Lemmas about `words` and `sjoin` -/

/-- Every word produced by `wordsAux` is non-empty and whitespace-free,
provided the accumulator is whitespace-free. -/
theorem wordsAux_props (cs : List Char) :
    ∀ acc, (∀ c ∈ acc, c.isWhitespace = false) →
    ∀ w ∈ wordsAux cs acc, w ≠ [] ∧ ∀ c ∈ w, c.isWhitespace = false := by
  induction cs with
  | nil =>
    intro acc hacc w hw
    by_cases h : acc = []
    · simp [wordsAux, h] at hw
    · simp only [wordsAux, if_neg h, List.mem_singleton] at hw
      subst hw
      refine ⟨by simpa using h, ?_⟩
      intro c hc
      exact hacc c (List.mem_reverse.mp hc)
  | cons c cs ih =>
    intro acc hacc w hw
    simp only [wordsAux] at hw
    by_cases hws : c.isWhitespace
    · rw [if_pos hws] at hw
      by_cases h : acc = []
      · rw [if_pos h] at hw
        exact ih [] (by simp) w hw
      · rw [if_neg h] at hw
        rcases List.mem_cons.mp hw with h1 | h1
        · subst h1
          refine ⟨by simpa using h, ?_⟩
          intro d hd
          exact hacc d (List.mem_reverse.mp hd)
        · exact ih [] (by simp) w h1
    · rw [if_neg hws] at hw
      refine ih (c :: acc) ?_ w hw
      intro d hd
      rcases List.mem_cons.mp hd with h1 | h1
      · subst h1; simpa using hws
      · exact hacc d h1

/-- Feeding a whitespace-free block into `wordsAux` just extends the
accumulator. -/
theorem wordsAux_append (w : List Char) :
    ∀ rest acc, (∀ c ∈ w, c.isWhitespace = false) →
    wordsAux (w ++ rest) acc = wordsAux rest (w.reverse ++ acc) := by
  induction w with
  | nil => intro rest acc _; simp
  | cons c w ih =>
    intro rest acc h
    have hc : c.isWhitespace = false := h c (by simp)
    simp only [List.cons_append, wordsAux, hc, Bool.false_eq_true, if_false,
      List.append_eq]
    rw [ih rest (c :: acc) (fun d hd => h d (List.mem_cons_of_mem c hd))]
    simp

/-- Round trip: splitting a single-space join of non-empty whitespace-free
words gives the words back. -/
theorem wordsAux_joinSep (ws : List (List Char))
    (h : ∀ w ∈ ws, w ≠ [] ∧ ∀ c ∈ w, c.isWhitespace = false) :
    wordsAux (joinSep [' '] ws) [] = ws := by
  induction ws with
  | nil => simp [joinSep, wordsAux]
  | cons w ws ih =>
    obtain ⟨hw, hwf⟩ := h w (by simp)
    cases ws with
    | nil =>
      have := wordsAux_append w [] [] hwf
      simp only [List.append_nil] at this
      simp only [joinSep, this, wordsAux]
      rw [if_neg (by simpa using hw)]
      simp
    | cons v vs =>
      have hrest : ∀ u ∈ v :: vs, u ≠ [] ∧ ∀ c ∈ u, c.isWhitespace = false :=
        fun u hu => h u (List.mem_cons_of_mem w hu)
      have hjoin : joinSep [' '] (w :: v :: vs) =
          w ++ (' ' :: joinSep [' '] (v :: vs)) := by
        simp [joinSep]
      rw [hjoin, wordsAux_append w _ [] hwf]
      simp only [List.append_nil, wordsAux]
      rw [if_pos (by decide), if_neg (by simpa using hw)]
      rw [ih hrest]
      simp

/-- The words of any string are non-empty and whitespace-free. -/
theorem words_props (s : String) :
    ∀ w ∈ words s, w ≠ "" ∧ ∀ c ∈ w.data, c.isWhitespace = false := by
  intro w hw
  simp only [words, List.mem_map] at hw
  obtain ⟨l, hl, rfl⟩ := hw
  obtain ⟨h1, h2⟩ := wordsAux_props s.data [] (by simp) l hl
  constructor
  · intro hcon
    apply h1
    have : (⟨l⟩ : String).data = ("" : String).data := by rw [hcon]
    simpa using this
  · exact h2

/-- Round trip at the `String` level: `"x y z".split()` of a single-space
join of non-empty whitespace-free words gives the words back. -/
theorem words_sjoin (ws : List String)
    (h : ∀ w ∈ ws, w ≠ "" ∧ ∀ c ∈ w.data, c.isWhitespace = false) :
    words (sjoin " " ws) = ws := by
  have hdata : ∀ w ∈ ws.map String.data, w ≠ [] ∧
      ∀ c ∈ w, c.isWhitespace = false := by
    intro w hw
    simp only [List.mem_map] at hw
    obtain ⟨s, hs, rfl⟩ := hw
    obtain ⟨h1, h2⟩ := h s hs
    refine ⟨?_, h2⟩
    intro hcon
    apply h1
    cases s with
    | mk d => simp_all
  have hsep : (" " : String).data = [' '] := rfl
  simp only [words, sjoin, hsep]
  rw [wordsAux_joinSep (ws.map String.data) hdata, List.map_map]
  rw [show ((fun l => (⟨l⟩ : String)) ∘ String.data) = id from funext fun s => rfl]
  exact List.map_id ws

/-! ## Lemmas about the chunker -/

/-- Loop invariant of the sentence-accumulation fold: the sentences of the
closed groups followed by the current group and the remaining input are
exactly the initial sentences. -/
theorem chunkStep_foldl (target : Nat) (rest : List String) :
    ∀ gs cur n,
      (rest.foldl (chunkStep target) (gs, cur, n)).1.flatten ++
        (rest.foldl (chunkStep target) (gs, cur, n)).2.1 =
      gs.flatten ++ cur ++ rest := by
  induction rest with
  | nil => intro gs cur n; simp
  | cons s rest ih =>
    intro gs cur n
    simp only [List.foldl_cons]
    by_cases hc : cur ≠ [] ∧ n + (s.length + 1) > target
    · have hstep : chunkStep target (gs, cur, n) s =
          (gs ++ [cur], [s], s.length + 1) := by
        simp only [chunkStep, if_pos hc]
      rw [hstep, ih]
      simp
    · have hstep : chunkStep target (gs, cur, n) s =
          (gs, cur ++ [s], n + (s.length + 1)) := by
        simp only [chunkStep, if_neg hc]
      rw [hstep, ih]
      simp

/-- Concatenating the chunker's sentence groups gives back the input
sentence sequence. -/
theorem chunkGroups_join (sents : List String) (target : Nat) :
    (chunkGroups sents target).flatten = sents := by
  have hinv := chunkStep_foldl target sents [] [] 0
  simp only [List.flatten_nil, List.nil_append] at hinv
  simp only [chunkGroups]
  by_cases h : (sents.foldl (chunkStep target) ([], [], 0)).2.1 ≠ []
  · rw [if_pos h, List.flatten_append]
    simpa using hinv
  · rw [if_neg h]
    push_neg at h
    rw [h] at hinv
    simpa using hinv

/-! ## Lemmas about the post-trim step -/

/-- When the candidate has more than `t + 30` words, the trim truncates to
exactly the first `t + 30` words and that is what a recount sees. -/
theorem postTrim_words_of_gt (t : Int) (s : String)
    (hgt : t + 30 < ((words s).length : Int)) (h0 : 0 ≤ t + 30) :
    words (postTrim t s) = (words s).take (t + 30).toNat ∧
      (((words (postTrim t s)).length : Int) = t + 30) := by
  have hif : ((words s).length : Int) > t + 30 := hgt
  have hwords : words (postTrim t s) = (words s).take (t + 30).toNat := by
    simp only [postTrim, if_pos hif]
    refine words_sjoin _ ?_
    intro w hw
    exact words_props s w (List.take_subset _ _ hw)
  refine ⟨hwords, ?_⟩
  rw [hwords, List.length_take]
  have hlt : (t + 30).toNat ≤ (words s).length := by omega
  rw [min_eq_left hlt]
  omega

/-- After the trim, the word count never exceeds `t + 30`. -/
theorem postTrim_bound (t : Int) (s : String) (h0 : 0 ≤ t + 30) :
    ((words (postTrim t s)).length : Int) ≤ t + 30 := by
  by_cases hgt : t + 30 < ((words s).length : Int)
  · exact le_of_eq (postTrim_words_of_gt t s hgt h0).2
  · have : ¬ ((words s).length : Int) > t + 30 := hgt
    simp only [postTrim, if_neg this]
    omega

/-! ## Claim C6 (corrected) -/

/-- C6, counterexample: the claim says the effective target always equals the
requested `max_words` clamped to [30, 800].  At the concrete request value 0
the code computes `max(30, min(800, 0 or 200)) = 200` because Python `or`
treats 0 as falsy, while the clamp of 0 is 30. -/
theorem c6_counterexample :
    targetWords (some 0) ≠ max 30 (min 800 (0 : Int)) := by decide

/-- C6, amended: for every requested `max_words` other than 0 the effective
target is the request clamped to [30, 800]; an unspecified `max_words` and
the falsy request 0 both fall back to the default 200. -/
theorem c6_target_clamped (n : Int) (hn : n ≠ 0) :
    targetWords (some n) = max 30 (min 800 n) ∧
    targetWords none = 200 ∧ targetWords (some 0) = 200 := by
  refine ⟨?_, by decide, by decide⟩
  simp [targetWords, orDefault, hn]

/-- C6 witness: the amended statement evaluated at the request value 1000. -/
theorem c6_witness :
    (1000 : Int) ≠ 0 ∧
    (targetWords (some 1000) = max 30 (min 800 1000) ∧
     targetWords none = 200 ∧ targetWords (some 0) = 200) :=
  ⟨by decide, c6_target_clamped 1000 (by decide)⟩

/-! ## Claim C7 (size guard) -/

/-- C7: whenever the (stripped) input text is longer than the configured
`MAX_INPUT_CHARS`, the call answers 413, for every tokenizer and ranker
oracle — no chunking or summarization work influences the outcome. -/
theorem c7_size_guard (cfg : Config) (o : Oracles) (req : SummarizeRequest)
    (h : (pyStrip req.text).length > cfg.maxInputChars) :
    summarize cfg o req = .payloadTooLarge := by
  have hne : pyStrip req.text ≠ "" := by
    intro hcon
    rw [hcon] at h
    simp only [String.length_empty] at h
    omega
  simp only [summarize, if_neg hne, if_pos h]

/-- C7 witness: a 5-character text against a 3-character cap is refused with
413 whatever the oracles do. -/
theorem c7_witness :
    (pyStrip "hello").length > (3 : Nat) ∧
    summarize ⟨3, 45000, 200⟩
      ⟨fun _ => [], fun _ _ => none, fun _ _ => none⟩
      ⟨"hello", none⟩ = .payloadTooLarge :=
  ⟨by decide,
   c7_size_guard ⟨3, 45000, 200⟩ ⟨fun _ => [], fun _ _ => none, fun _ _ => none⟩
     ⟨"hello", none⟩ (by decide)⟩

/-! ## Claim C8 (monotone budget) -/

/-- C8: for a fixed sentence list (fixed text, hence fixed tokenization), the
sentence budget `max(1, ceil(t / max(1, words/len)))` is non-decreasing in
the target word count `t`. -/
theorem c8_budget_monotone (sents : List String) (t t' : ℚ) (h : t ≤ t') :
    estimateSentCount t sents ≤ estimateSentCount t' sents := by
  unfold estimateSentCount
  by_cases hs : sents = []
  · simp [hs]
  · simp only [if_neg hs]
    set w : ℕ := (sents.map (fun s => (words s).length)).sum with hw
    set avg : ℚ := max 1 ((w : ℚ) / (sents.length : ℚ)) with havg
    have havg_pos : 0 < avg := lt_of_lt_of_le one_pos (le_max_left _ _)
    have hdiv : t / avg ≤ t' / avg := by gcongr
    have hceil : ⌈t / avg⌉ ≤ ⌈t' / avg⌉ := Int.ceil_le_ceil hdiv
    have hmax : max 1 ⌈t / avg⌉ ≤ max 1 ⌈t' / avg⌉ :=
      max_le_max le_rfl hceil
    exact Int.toNat_le_toNat hmax

/-- C8 witness: the budget at target 30 is at most the budget at target 40
for a concrete three-word sentence. -/
theorem c8_witness :
    (30 : ℚ) ≤ 40 ∧
    estimateSentCount 30 ["a b c."] ≤ estimateSentCount 40 ["a b c."] :=
  ⟨by norm_num, c8_budget_monotone ["a b c."] 30 40 (by norm_num)⟩

/-! ## Claim C4 (chunker round trip) -/

/-- C4: when sentence tokenization of the input is non-empty, the chunks are
contiguous, non-overlapping, order-preserving groups of the input sentences:
flattening the chunker's sentence groups gives back exactly the tokenized
sentence sequence, and the returned chunks are exactly those groups joined
with single spaces (the added separators) and stripped. -/
theorem c4_chunker_round_trip (tok : String → List String) (text : String)
    (target : Nat) (h : tok text ≠ []) :
    (chunkGroups (tok text) target).flatten = tok text ∧
    split_text_to_chunks_by_sentences tok text target =
      (chunkGroups (tok text) target).map (fun g => pyStrip (sjoin " " g)) := by
  refine ⟨chunkGroups_join (tok text) target, ?_⟩
  have hne : chunkGroups (tok text) target ≠ [] := by
    intro hcon
    apply h
    rw [← chunkGroups_join (tok text) target, hcon]
    rfl
  simp only [split_text_to_chunks_by_sentences]
  rw [if_neg (by simpa using hne)]

/-- C4 witness: a two-sentence tokenization with a 3-character chunk target
splits into two chunks whose groups flatten back to the sentences. -/
theorem c4_witness :
    ((fun _ : String => ["A b.", "C d."]) "t" ≠ []) ∧
    ((chunkGroups ((fun _ : String => ["A b.", "C d."]) "t") 3).flatten =
        (fun _ : String => ["A b.", "C d."]) "t" ∧
      split_text_to_chunks_by_sentences (fun _ : String => ["A b.", "C d."]) "t" 3 =
        (chunkGroups ((fun _ : String => ["A b.", "C d."]) "t") 3).map
          (fun g => pyStrip (sjoin " " g))) :=
  ⟨by decide, c4_chunker_round_trip (fun _ => ["A b.", "C d."]) "t" 3 (by decide)⟩

/-! ## Claim C3 (fallback chain never raises) -/

/-- Stripping and filtering the ranked sentences cannot increase the count. -/
theorem filtClean_length_le (l : List String) :
    (filtClean l).length ≤ l.length := by
  simp only [filtClean]
  exact le_trans (List.length_filter_le _ _) (by simp)

/-- The final raw-sentence fallback: at most `k` sentences, and empty only
when the tokenization itself is empty. -/
theorem fallback_take (raw : List String) (k : Nat) (hk : 1 ≤ k) :
    (raw.take (max 1 (min raw.length k))).length ≤ k ∧
    (raw.take (max 1 (min raw.length k)) = [] → raw = []) := by
  constructor
  · rw [List.length_take]
    omega
  · intro h
    have hlen := congrArg List.length h
    rw [List.length_take, List.length_nil] at hlen
    have : raw.length = 0 := by omega
    exact List.eq_nil_of_length_eq_zero this

/-- C3: the extractive-summarize-with-fallback function is total (the
embedding returns a plain list: every ranker exception is modelled by `none`
and absorbed), returns at most `sentence_count` sentences whenever the two
rankers respect their contract of returning at most the requested number,
and returns an empty list only when sentence tokenization of the text is
empty. -/
theorem c3_sumy_fallback_total (o : Oracles) (text : String) (k : Nat)
    (hk : 1 ≤ k)
    (hlex : ∀ t n l, o.lexrank t n = some l → l.length ≤ n)
    (hlsa : ∀ t n l, o.lsa t n = some l → l.length ≤ n) :
    (summarize_text_with_sumy o text k).length ≤ k ∧
    (summarize_text_with_sumy o text k = [] → o.tok text = []) := by
  simp only [summarize_text_with_sumy]
  rcases hL : o.lexrank text k with _ | l
  all_goals simp only [hL]
  · rcases hS : o.lsa text k with _ | m
    all_goals simp only [hS]
    · simpa using fallback_take (o.tok text) k hk
    · by_cases hm : filtClean m ≠ []
      · rw [if_neg (by simp), if_pos hm]
        exact ⟨le_trans (filtClean_length_le m) (hlsa _ _ _ hS),
          fun hcon => absurd hcon hm⟩
      · rw [if_neg (by simp), if_neg hm]
        simpa using fallback_take (o.tok text) k hk
  · by_cases hl : filtClean l ≠ []
    · rw [if_pos hl]
      exact ⟨le_trans (filtClean_length_le l) (hlex _ _ _ hL),
        fun hcon => absurd hcon hl⟩
    · rw [if_neg hl]
      rcases hS : o.lsa text k with _ | m
      all_goals simp only [hS]
      · simpa using fallback_take (o.tok text) k hk
      · by_cases hm : filtClean m ≠ []
        · rw [if_pos hm]
          exact ⟨le_trans (filtClean_length_le m) (hlsa _ _ _ hS),
            fun hcon => absurd hcon hm⟩
        · rw [if_neg hm]
          simpa using fallback_take (o.tok text) k hk

/-- C3 witness: with both rankers failing (raising) and a one-sentence
tokenization, requesting 3 sentences yields at most 3 sentences and the
non-empty tokenization gives a non-empty result. -/
theorem c3_witness :
    (1 : Nat) ≤ 3 ∧
    ((summarize_text_with_sumy
        ⟨fun s => if s = "" then [] else [s], fun _ _ => none, fun _ _ => none⟩
        "A b." 3).length ≤ 3 ∧
      (summarize_text_with_sumy
        ⟨fun s => if s = "" then [] else [s], fun _ _ => none, fun _ _ => none⟩
        "A b." 3 = [] →
        (⟨fun s => if s = "" then [] else [s], fun _ _ => none,
          fun _ _ => none⟩ : Oracles).tok "A b." = [])) :=
  ⟨by decide,
   c3_sumy_fallback_total
     ⟨fun s => if s = "" then [] else [s], fun _ _ => none, fun _ _ => none⟩
     "A b." 3 (by decide) (by simp) (by simp)⟩

/-! ## Claim C5 (ordering by origin) -/

/-- C5: when every selected sentence occurs case-insensitively in the
reference text, `ordered_join` returns a permutation of the sentences whose
first-occurrence offsets are pairwise non-decreasing, joined with single
spaces and stripped of surrounding whitespace. -/
theorem c5_ordered_join_sorted (sentences : List String)
    (original_text : String)
    (h : ∀ s ∈ sentences,
      findSub (lowerChars original_text).data (lowerChars s).data ≠ none) :
    ∃ l : List String, l.Perm sentences ∧
      l.Pairwise (fun a b => ∃ i j,
        findSub (lowerChars original_text).data (lowerChars a).data = some i ∧
        findSub (lowerChars original_text).data (lowerChars b).data = some j ∧
        i ≤ j) ∧
      ordered_join sentences original_text = pyStrip (sjoin " " l) := by
  refine ⟨sentences.insertionSort
    (fun a b => occKey (lowerChars original_text) a ≤
      occKey (lowerChars original_text) b),
    List.perm_insertionSort _ sentences, ?_, rfl⟩
  haveI : IsTotal String (fun a b => occKey (lowerChars original_text) a ≤
      occKey (lowerChars original_text) b) :=
    ⟨fun a b => le_total _ _⟩
  haveI : IsTrans String (fun a b => occKey (lowerChars original_text) a ≤
      occKey (lowerChars original_text) b) :=
    ⟨fun _ _ _ hab hbc => le_trans hab hbc⟩
  have hsorted := List.sorted_insertionSort
    (fun a b => occKey (lowerChars original_text) a ≤
      occKey (lowerChars original_text) b) sentences
  refine hsorted.imp_of_mem ?_
  intro a b ha hb hab
  have hma : a ∈ sentences := (List.perm_insertionSort _ sentences).subset ha
  have hmb : b ∈ sentences := (List.perm_insertionSort _ sentences).subset hb
  obtain ⟨i, hi⟩ := Option.ne_none_iff_exists'.mp (h a hma)
  obtain ⟨j, hj⟩ := Option.ne_none_iff_exists'.mp (h b hmb)
  refine ⟨i, j, hi, hj, ?_⟩
  have hcoe : (i : WithTop Nat) ≤ (j : WithTop Nat) := by
    simpa [occKey, hi, hj] using hab
  exact_mod_cast hcoe

/-- C5 witness: two sentences found in the reference come out ordered by
their first case-insensitive occurrence. -/
theorem c5_witness :
    (∀ s ∈ ["b c.", "A b."],
      findSub (lowerChars "a b. B c.").data (lowerChars s).data ≠ none) ∧
    (∃ l : List String, l.Perm ["b c.", "A b."] ∧
      l.Pairwise (fun a b => ∃ i j,
        findSub (lowerChars "a b. B c.").data (lowerChars a).data = some i ∧
        findSub (lowerChars "a b. B c.").data (lowerChars b).data = some j ∧
        i ≤ j) ∧
      ordered_join ["b c.", "A b."] "a b. B c." = pyStrip (sjoin " " l)) :=
  ⟨by decide, c5_ordered_join_sorted ["b c.", "A b."] "a b. B c." (by decide)⟩

/-! ## Claim C2 (short circuit) -/

/-- C2: for every request whose stripped text is non-empty, within the
character cap, and whose total word count is at most `target_words + 20`,
the endpoint returns that text verbatim with its word count and
method = "original", for every tokenizer and ranker oracle. -/
theorem c2_short_circuit (cfg : Config) (o : Oracles) (req : SummarizeRequest)
    (hne : pyStrip req.text ≠ "")
    (hlen : (pyStrip req.text).length ≤ cfg.maxInputChars)
    (hwc : ((words (pyStrip req.text)).length : Int) ≤
      targetWords req.max_words + 20) :
    summarize cfg o req =
      .ok ⟨pyStrip req.text, (words (pyStrip req.text)).length, "original"⟩ := by
  simp only [summarize]
  rw [if_neg hne, if_neg (not_lt.mpr hlen), if_pos hwc]

/-- C2 witness: a two-word text with `max_words = 100` is returned verbatim
(after the validate-stage strip) with word count 2 and method "original". -/
theorem c2_witness :
    pyStrip " Short text. " ≠ "" ∧
    (pyStrip " Short text. ").length ≤ (200000 : Nat) ∧
    ((words (pyStrip " Short text. ")).length : Int) ≤
      targetWords (some 100) + 20 ∧
    summarize ⟨200000, 45000, 200⟩
      ⟨fun _ => [], fun _ _ => none, fun _ _ => none⟩
      ⟨" Short text. ", some 100⟩ =
      .ok ⟨pyStrip " Short text. ",
           (words (pyStrip " Short text. ")).length, "original"⟩ :=
  ⟨by decide, by decide, by decide,
   c2_short_circuit ⟨200000, 45000, 200⟩
     ⟨fun _ => [], fun _ _ => none, fun _ _ => none⟩
     ⟨" Short text. ", some 100⟩ (by decide) (by decide) (by decide)⟩

/-! ## Claim C10 (word_count consistency) -/

/-- C10: every 200 response carries a `word_count` equal to the number of
whitespace-separated words of the returned summary, on the "original" path
and on the final-pass paths alike (the handler recomputes it from the very
string it returns). -/
theorem c10_word_count_consistent (cfg : Config) (o : Oracles)
    (req : SummarizeRequest) (r : SummaryResp)
    (h : summarize cfg o req = .ok r) :
    r.word_count = (words r.summary).length := by
  simp only [summarize] at h
  split at h
  · exact absurd h (by simp)
  · split at h
    · exact absurd h (by simp)
    · split at h
      · rw [SummarizeResult.ok.injEq] at h
        subst h
        rfl
      · rw [SummarizeResult.ok.injEq] at h
        subst h
        rfl

/-- C10 witness: on a concrete 51-word input that bypasses the short
circuit, the responded word count equals the word count of the responded
summary. -/
theorem c10_witness :
    summarize ⟨200000, 45000, 200⟩
      ⟨fun s => if s = "" then [] else [s], fun _ _ => some ["x y."],
        fun _ _ => none⟩
      ⟨"w w w w w w w w w w w w w w w w w w w w w w w w w w w w w w w w w w w w w w w w w w w w w w w w w w w.", some 30⟩ =
      .ok ⟨"x y.", 2, "chunked-lexrank"⟩ ∧
    (2 : Nat) = (words "x y.").length :=
  ⟨by decide,
   c10_word_count_consistent ⟨200000, 45000, 200⟩
     ⟨fun s => if s = "" then [] else [s], fun _ _ => some ["x y."],
       fun _ _ => none⟩
     ⟨"w w w w w w w w w w w w w w w w w w w w w w w w w w w w w w w w w w w w w w w w w w w w w w w w w w w.", some 30⟩
     ⟨"x y.", 2, "chunked-lexrank"⟩ (by decide)⟩

/-! ## Claim C1 (trim bound) -/

/-- C1: every 200 response has `word_count ≤ target_words + 30`; moreover
whenever a candidate summary has more than `target_words + 30` words, the
Trim step truncates it to exactly the first `target_words + 30` words
(word-boundary truncation, no ellipsis) and the word count is recomputed
from the truncated text. -/
theorem c1_trim_bound (cfg : Config) (o : Oracles) (req : SummarizeRequest)
    (r : SummaryResp) (h : summarize cfg o req = .ok r) :
    (r.word_count : Int) ≤ targetWords req.max_words + 30 ∧
    ∀ (t : Int) (s : String), 0 ≤ t + 30 →
      t + 30 < ((words s).length : Int) →
      words (postTrim t s) = (words s).take (t + 30).toNat ∧
      ((words (postTrim t s)).length : Int) = t + 30 := by
  refine ⟨?_, fun t s h0 hgt => postTrim_words_of_gt t s hgt h0⟩
  have ht : (30 : Int) ≤ targetWords req.max_words := le_max_left _ _
  simp only [summarize] at h
  split at h
  · exact absurd h (by simp)
  · split at h
    · exact absurd h (by simp)
    · split at h
      · rename_i hc
        rw [SummarizeResult.ok.injEq] at h
        subst h
        simp only [SummaryResp.word_count]
        omega
      · rw [SummarizeResult.ok.injEq] at h
        subst h
        exact postTrim_bound _ _ (by omega)

/-- C1 witness: a 51-word input with `max_words = 30` answers with word
count 2, within the bound `30 + 30`; and trimming a 63-word candidate at
`t = 30` keeps exactly the first 60 words. -/
theorem c1_witness :
    ((2 : Nat) : Int) ≤ targetWords (some 30) + 30 ∧
    words (postTrim 30 (sjoin " " (List.replicate 63 "v"))) =
      (words (sjoin " " (List.replicate 63 "v"))).take (((30 : Int) + 30).toNat) ∧
    ((words (postTrim 30 (sjoin " " (List.replicate 63 "v")))).length : Int) =
      30 + 30 :=
  ⟨(c1_trim_bound ⟨200000, 45000, 200⟩
     ⟨fun s => if s = "" then [] else [s], fun _ _ => some ["x y."],
       fun _ _ => none⟩
     ⟨"w w w w w w w w w w w w w w w w w w w w w w w w w w w w w w w w w w w w w w w w w w w w w w w w w w w.", some 30⟩
     ⟨"x y.", 2, "chunked-lexrank"⟩ (by decide)).1,
   (c1_trim_bound ⟨200000, 45000, 200⟩
     ⟨fun s => if s = "" then [] else [s], fun _ _ => some ["x y."],
       fun _ _ => none⟩
     ⟨"w w w w w w w w w w w w w w w w w w w w w w w w w w w w w w w w w w w w w w w w w w w w w w w w w w w.", some 30⟩
     ⟨"x y.", 2, "chunked-lexrank"⟩ (by decide)).2 30
     (sjoin " " (List.replicate 63 "v")) (by decide) (by decide)⟩

/-! ## Claim C9 (chunked label) -/

/-- When the recombined text still tokenizes to at least one sentence, the
final pass labels the response with the chunked label. -/
theorem finalPhase_method (cfg : Config) (o : Oracles) (t : Int)
    (text : String) (h : o.tok (combinedText cfg o t text) ≠ []) :
    (finalPhase cfg o t text).2 = "chunked-lexrank" := by
  simp only [finalPhase, if_neg h]

/-- C9: whenever the short circuit is bypassed (non-empty stripped text
within the cap, word count above `target_words + 20`) and the recombined
partial-summary text has at least one sentence, the response method is
"chunked-lexrank" — even when the chunker produced a single chunk — and no
response of this run carries "extractive-lexrank". -/
theorem c9_chunked_label (cfg : Config) (o : Oracles) (req : SummarizeRequest)
    (hne : pyStrip req.text ≠ "")
    (hlen : (pyStrip req.text).length ≤ cfg.maxInputChars)
    (hbig : ¬ ((words (pyStrip req.text)).length : Int) ≤
      targetWords req.max_words + 20)
    (hcomb : o.tok (combinedText cfg o (targetWords req.max_words)
      (pyStrip req.text)) ≠ []) :
    (∃ s n, summarize cfg o req = .ok ⟨s, n, "chunked-lexrank"⟩) ∧
    ∀ r, summarize cfg o req = .ok r → r.method ≠ "extractive-lexrank" := by
  have hsum : summarize cfg o req =
      .ok ⟨postTrim (targetWords req.max_words)
            (finalPhase cfg o (targetWords req.max_words) (pyStrip req.text)).1,
          (words (postTrim (targetWords req.max_words)
            (finalPhase cfg o (targetWords req.max_words)
              (pyStrip req.text)).1)).length,
          (finalPhase cfg o (targetWords req.max_words) (pyStrip req.text)).2⟩ := by
    simp only [summarize]
    rw [if_neg hne, if_neg (not_lt.mpr hlen), if_neg hbig]
  rw [finalPhase_method cfg o _ _ hcomb] at hsum
  refine ⟨⟨_, _, hsum⟩, ?_⟩
  intro r hr
  have h2 := hsum.symm.trans hr
  rw [SummarizeResult.ok.injEq] at h2
  subst h2
  show ("chunked-lexrank" : String) ≠ "extractive-lexrank"
  decide

/-- C9 witness: a 51-word input that bypasses the short circuit and whose
recombined text tokenizes to one sentence gets the "chunked-lexrank" label
even though only a single chunk was produced. -/
theorem c9_witness :
    pyStrip "w w w w w w w w w w w w w w w w w w w w w w w w w w w w w w w w w w w w w w w w w w w w w w w w w w w." ≠ "" ∧
    (∃ s n, summarize ⟨200000, 45000, 200⟩
      ⟨fun s => if s = "" then [] else [s], fun _ _ => some ["x y."],
        fun _ _ => none⟩
      ⟨"w w w w w w w w w w w w w w w w w w w w w w w w w w w w w w w w w w w w w w w w w w w w w w w w w w w.", some 30⟩ =
      .ok ⟨s, n, "chunked-lexrank"⟩) :=
  ⟨by decide,
   (c9_chunked_label ⟨200000, 45000, 200⟩
     ⟨fun s => if s = "" then [] else [s], fun _ _ => some ["x y."],
       fun _ _ => none⟩
     ⟨"w w w w w w w w w w w w w w w w w w w w w w w w w w w w w w w w w w w w w w w w w w w w w w w w w w w.", some 30⟩
     (by decide) (by decide) (by decide) (by decide)).1⟩

end Summarizer
